import Mathlib

/-!
Verification of the collection-and-scan engine of `k8s-find-obj`
(`internal/internal.go`, `cmd/main.go`).

Go strings are modelled as lists of characters (`GoStr`); all object
texts in the claims are ASCII, where one character is one byte, so list
positions coincide with Go byte offsets.  `strings.ToLower` is modelled
character-wise on the ASCII range (the range exercised by the program's
serialized objects); the one claim whose truth depends on lowercasing
being length-preserving (C2) is stated for an arbitrary lowered string
with the length-preservation as an explicit hypothesis.  The two
compiled regular expressions are external library values consumed by
the code; they enter the model as opaque-to-the-logic functions: the
search pattern as a matcher returning the list of match intervals that
`FindAllStringIndex` yields, the exclusion pattern as a Boolean
predicate (`MatchString`).  For claims about concrete match lists, the
documented leftmost-first non-overlapping semantics of
`FindAllStringIndex` is instantiated for literal patterns by the
executable `findAllLiteral` below.
-/

/-- Go string, modelled as a list of characters. -/
abbrev GoStr := List Char

/-- ASCII uppercase test, `'A' <= c <= 'Z'`. -/
def isUpperAscii (c : Char) : Bool := decide ('A' ≤ c) && decide (c ≤ 'Z')

/-- One character of Go's `strings.ToLower`, restricted to the ASCII
range: an uppercase ASCII letter moves down by 32, everything else is
unchanged. -/
def goToLowerChar (c : Char) : Char :=
  if isUpperAscii c then Char.ofNat (c.toNat + 32) else c

/-- Go's `strings.ToLower`, character-wise on the ASCII range. -/
def goToLower (s : GoStr) : GoStr := s.map goToLowerChar

/-- Character order on `Char` is the order of the numeric code. -/
theorem char_le_iff (a b : Char) : (a ≤ b) ↔ a.toNat ≤ b.toNat := Iff.rfl

/-- Evaluation of `Char.ofNat` on the ASCII lowercase range. -/
theorem toNat_ofNat_lower (n : Nat) (h1 : 97 ≤ n) (h2 : n ≤ 122) :
    (Char.ofNat n).toNat = n := by
  have hv : n.isValidChar := Or.inl (by omega)
  rw [Char.ofNat, dif_pos hv]
  simp [Char.ofNatAux, Char.toNat, UInt32.toNat]

/-- Lowercasing never produces an ASCII uppercase letter. -/
theorem isUpperAscii_goToLowerChar (c : Char) :
    isUpperAscii (goToLowerChar c) = false := by
  unfold goToLowerChar
  by_cases h : isUpperAscii c = true
  · rw [if_pos h]
    unfold isUpperAscii at h ⊢
    simp [char_le_iff] at h ⊢
    rw [toNat_ofNat_lower (c.toNat + 32) (by omega) (by omega)]
    omega
  · rw [if_neg h]
    simp at h
    exact h

/-- Uniform stored representation of a fetched resource
(`internal.go` lines 36-41): kind tag, name, namespace and the full
textual serialization that is searched. -/
structure KubernetesObject where
  kind : GoStr
  name : GoStr
  nspace : GoStr
  object : GoStr
deriving DecidableEq

/-- Search configuration after `Init` (`internal.go` lines 23-34,
60-89): the compiled search pattern is consumed only through
`FindAllStringIndex`, modelled by `matcher`, which returns the list of
match intervals on its input; the optional compiled exclusion pattern
is consumed only through `MatchString`, modelled by `exceptRe`;
`showTails` is the context radius (`ShowTails`, 10 by default,
`internal.go` line 19). -/
structure SearchConfig where
  matcher : GoStr → List (Nat × Nat)
  exceptRe : Option (GoStr → Bool)
  showTails : Nat

/-- Structured log lines the scan phase emits (`internal.go` lines
236 and 261): a debug-level ignore line, or an informational match
report carrying kind/name/namespace and the snippet. -/
inductive LogEvent where
  | ignored (kind name nspace : GoStr)
  | report (kind name nspace : GoStr) (text : GoStr)
deriving DecidableEq

/-- Match reports among a list of log events. -/
def isReport : LogEvent → Bool
  | .report _ _ _ _ => true
  | .ignored _ _ _ => false

/-- Number of match reports among a list of log events. -/
def reportCount (evs : List LogEvent) : Nat := (evs.filter isReport).length

/-- Exclusion test of `internal.go` line 235:
`a.exceptRe != nil && a.exceptRe.MatchString(obj.Namespace+"/"+obj.Name)`. -/
def excludeFires (cfg : SearchConfig) (obj : KubernetesObject) : Bool :=
  match cfg.exceptRe with
  | some ex => ex (obj.nspace ++ [ '/' ] ++ obj.name)
  | none => false

/-- Window start of `internal.go` lines 247 and 250-252:
`start := loc[0] - a.ShowTails; if start < 0 { start = 0 }`.  Go `int`
subtraction followed by the clamp at zero equals truncated natural
subtraction, both operands being non-negative. -/
def windowStart (s r : Nat) : Nat := s - r

/-- Window end of `internal.go` lines 248 and 254-256:
`end := loc[1] + a.ShowTails; if max := len(obj.Object); end > max
{ end = max }`. -/
def windowEnd (len e r : Nat) : Nat := if e + r > len then len else e + r

/-- Go slice expression `t[s:e]` for `s ≤ e ≤ len t`
(`internal.go` line 258). -/
def sliceList (t : GoStr) (s e : Nat) : GoStr := (t.drop s).take (e - s)

/-- Newline replacement of `internal.go` line 259:
`strings.ReplaceAll(text, "\n", " ")`; with a one-character pattern and
one-character replacement this is a character map. -/
def replaceNewline (s : GoStr) : GoStr :=
  s.map (fun c => if c = '\n' then ' ' else c)

/-- Scan of a single stored object, the body of the loop of
`Application.search` (`internal.go` lines 228-263): exclusion check
first, then all matches of the search pattern on the lowercased text,
then one report per match with the clamped context window of the
original-case text, newlines replaced by spaces.  The source's
`if locs == nil { continue }` emits nothing, exactly as mapping over an
empty match list does. -/
def searchObj (cfg : SearchConfig) (obj : KubernetesObject) : List LogEvent :=
  if excludeFires cfg obj then
    [LogEvent.ignored obj.kind obj.name obj.nspace]
  else
    (cfg.matcher (goToLower obj.object)).map (fun loc =>
      LogEvent.report obj.kind obj.name obj.nspace
        (replaceNewline (sliceList obj.object
          (windowStart loc.1 cfg.showTails)
          (windowEnd obj.object.length loc.2 cfg.showTails))))

/-- The whole scan phase, `Application.search` (`internal.go` lines
227-264): the loop over the stored objects, in store order. -/
def search (cfg : SearchConfig) (objs : List KubernetesObject) : List LogEvent :=
  (objs.map (searchObj cfg)).flatten

/-- Scope test `Application.isInWhere` (`internal.go` lines 91-95):
split the lowercased scope string on commas and test exact membership
of the lowercased kind name. -/
def isInWhere (whereToSearch : GoStr) (obj : GoStr) : Bool :=
  let objs := (goToLower whereToSearch).splitOn ','
  objs.contains (goToLower obj)

/-- Resource kinds of the fixed closed set (`internal.go` lines
97-225). -/
inductive Kind where
  | pods
  | configMaps
  | deployments
  | statefulSets
  | cronJobs
deriving DecidableEq

/-- Kind tag string, the `typeOf` constant of each collection routine. -/
def kindName : Kind → GoStr
  | .pods => "Pods".toList
  | .configMaps => "ConfigMaps".toList
  | .deployments => "Deployments".toList
  | .statefulSets => "StatefulSets".toList
  | .cronJobs => "CronJobs".toList

/-- Raw object as returned by the external cluster resource provider:
name, namespace and the full textual serialization
(`object.Name`, `object.Namespace`, `object.String()`). -/
structure RawObject where
  name : GoStr
  nspace : GoStr
  str : GoStr
deriving DecidableEq

/-- External provider capability: a list call per kind, returning the
items or an error (`clientset...List(ctx, metav1.ListOptions{})`). -/
def Provider := Kind → Except GoStr (List RawObject)

/-- Conversion of one raw item (`internal.go` lines 111-118): tag with
the kind constant, take name, namespace and serialization. -/
def convertObj (k : Kind) (o : RawObject) : KubernetesObject :=
  { kind := kindName k, name := o.name, nspace := o.nspace, object := o.str }

/-- Observable state of a run during collection: provider invocations
made so far, informational collection log lines, the Object Store
(`a.KubernetesObjects`) and the pending error of the last collection
routine, `none` when it returned `nil`. -/
structure CollectState where
  calls : List Kind
  logs : List GoStr
  store : List KubernetesObject
  err : Option GoStr
deriving DecidableEq

/-- One collection routine, the common body of `getPods`,
`getConfigmaps`, `getDeployments`, `getStatefulSets` and `getCronJobs`
(`internal.go` lines 97-225): return unchanged if the kind is out of
scope; otherwise log `"Getting <Kind> ..."`, invoke the provider, on
error record it wrapped as `"error in <Kind>: <msg>"`
(`errors.Wrap(err, "error in "+typeOf)`), on success append the
converted items to the store in provider order. -/
def getObjects (w : GoStr) (p : Provider) (k : Kind)
    (st : CollectState) : CollectState :=
  if isInWhere w (kindName k) then
    let st1 : CollectState :=
      { st with
        logs := st.logs ++ [("Getting ".toList ++ kindName k ++ " ...".toList)]
        calls := st.calls ++ [k] }
    match p k with
    | .error e =>
        { st1 with err := some ("error in ".toList ++ kindName k ++ (": ".toList) ++ e) }
    | .ok objects =>
        { st1 with store := st1.store ++ objects.map (convertObj k) }
  else
    st

/-- The collection loop of `Application.Run` (`internal.go` lines
277-281): run the routines in order, stopping at the first one that
returned an error. -/
def runCollect (w : GoStr) (p : Provider) : List Kind → CollectState → CollectState
  | [], st => st
  | k :: rest, st =>
    match st.err with
    | some _ => st
    | none => runCollect w p rest (getObjects w p k st)

/-- Fixed kind order of the `searchFuncs` slice (`internal.go` lines
269-275). -/
def allKinds : List Kind :=
  [Kind.pods, Kind.configMaps, Kind.deployments, Kind.statefulSets, Kind.cronJobs]

/-- Whole run, `Application.Run` (`internal.go` lines 268-286): collect
all kinds in order; on any error return it without scanning, otherwise
scan the store and return the emitted events. -/
def runApp (w : GoStr) (cfg : SearchConfig) (p : Provider)
    (init : CollectState) : CollectState × Except GoStr (List LogEvent) :=
  let st := runCollect w p allKinds init
  match st.err with
  | some e => (st, Except.error e)
  | none => (st, Except.ok (search cfg st.store))

/-- Scan phase as a state transformer: `Application.search` reads the
store and the configuration and only emits log lines; the loop of
`internal.go` lines 228-263 contains no write to `a.KubernetesObjects`
or to the configuration fields, so the state component is returned
unchanged. -/
def scanPhase (cfg : SearchConfig) (st : CollectState) :
    CollectState × List LogEvent :=
  (st, search cfg st.store)

/-- Empty initial state of a fresh `Application`
(`NewApplication`, `internal.go` lines 16-21). -/
def initState : CollectState :=
  { calls := [], logs := [], store := [], err := none }

/-- Helper: scan of a non-excluded object is one report per match
interval of the matcher on the lowercased text. -/
theorem searchObj_not_excluded (cfg : SearchConfig) (obj : KubernetesObject)
    (hex : excludeFires cfg obj = false) :
    searchObj cfg obj = (cfg.matcher (goToLower obj.object)).map (fun loc =>
      LogEvent.report obj.kind obj.name obj.nspace
        (replaceNewline (sliceList obj.object
          (windowStart loc.1 cfg.showTails)
          (windowEnd obj.object.length loc.2 cfg.showTails)))) := by
  simp [searchObj, hex]

/-- Claim C1, evidence against: under the wildcard scope string `"*"`
none of the five kinds is eligible, because `isInWhere` only tests
exact comma-separated token membership and has no wildcard case; the
claim (and the spec, together with the CLI default `-where "*"`)
requires every kind to be eligible there. -/
theorem c1_wildcard_scope_ineligible :
    ∀ k : Kind, isInWhere ("*".toList) (kindName k) = false := by
  intro k
  cases k <;> decide

/-- Claim C2: when lowercasing preserves length, a match interval
`[s, e)` found on the lowercased text yields a context window that is
valid for the original text: window start is at most window end, and
window end is at most the original length, so the Go slice expression
is in bounds and cannot panic. -/
theorem c2_match_offsets_in_bounds (orig lower : GoStr) (s e r : Nat)
    (hlen : lower.length = orig.length) (hse : s ≤ e) (he : e ≤ lower.length) :
    windowStart s r ≤ windowEnd orig.length e r ∧
      windowEnd orig.length e r ≤ orig.length := by
  unfold windowStart windowEnd
  split <;> omega

/-- Witness for C2 at a concrete object text and match. -/
theorem c2_witness :
    windowStart 8 10 ≤ windowEnd ("foo BAR foo".toList).length 11 10 ∧
      windowEnd ("foo BAR foo".toList).length 11 10 ≤ ("foo BAR foo".toList).length :=
  c2_match_offsets_in_bounds ("foo BAR foo".toList)
    (goToLower ("foo BAR foo".toList)) 8 11 10 (by decide) (by decide) (by decide)

/-- Claim C4: for a non-excluded object, the scan emits one report per
match `[s, e)`, whose snippet is the substring of the original-case
text on the window `[max 0 (s - r), min L (e + r))` with every newline
replaced by a space. -/
theorem c4_snippet_window (cfg : SearchConfig) (obj : KubernetesObject)
    (hex : excludeFires cfg obj = false) :
    searchObj cfg obj = (cfg.matcher (goToLower obj.object)).map (fun loc =>
      LogEvent.report obj.kind obj.name obj.nspace
        (replaceNewline (sliceList obj.object
          (Int.toNat (max 0 ((loc.1 : Int) - (cfg.showTails : Int))))
          (Int.toNat (min ((obj.object.length : Int)) ((loc.2 : Int) + (cfg.showTails : Int))))))) := by
  rw [searchObj_not_excluded cfg obj hex]
  apply List.map_congr_left
  intro loc _
  have h1 : windowStart loc.1 cfg.showTails
      = Int.toNat (max 0 ((loc.1 : Int) - (cfg.showTails : Int))) := by
    unfold windowStart
    omega
  have h2 : windowEnd obj.object.length loc.2 cfg.showTails
      = Int.toNat (min ((obj.object.length : Int)) ((loc.2 : Int) + (cfg.showTails : Int))) := by
    unfold windowEnd
    split <;> omega
  rw [h1, h2]

/-- Concrete object of the spec's end-to-end scenario. -/
def objW : KubernetesObject :=
  { kind := "Pods".toList
    name := "p1".toList
    nspace := "ns1".toList
    object := "foo BAR foo".toList }

/-- Search configuration of the spec's end-to-end scenario: the two
matches of the pattern on the lowercased text, radius 2, no
exclusion. -/
def cfgC4 : SearchConfig :=
  { matcher := fun _ => [(0, 3), (8, 11)], exceptRe := none, showTails := 2 }

/-- Witness for C4: the spec's end-to-end scenario, snippets
`"foo B"` and `"R foo"`. -/
theorem c4_witness :
    searchObj cfgC4 objW =
      [LogEvent.report ("Pods".toList) ("p1".toList) ("ns1".toList) ("foo B".toList),
       LogEvent.report ("Pods".toList) ("p1".toList) ("ns1".toList) ("R foo".toList)] :=
  (c4_snippet_window cfgC4 objW (by decide)).trans (by decide)

/-- Claim C5: an object whose exclusion key `"<namespace>/<name>"`
matches the configured exclude pattern yields exactly the debug-level
ignore line and zero match reports, whatever the matcher would have
found in its text. -/
theorem c5_excluded_not_reported (cfg : SearchConfig) (obj : KubernetesObject)
    (ex : GoStr → Bool) (hex : cfg.exceptRe = some ex)
    (hm : ex (obj.nspace ++ [ '/' ] ++ obj.name) = true) :
    searchObj cfg obj = [LogEvent.ignored obj.kind obj.name obj.nspace] ∧
      reportCount (searchObj cfg obj) = 0 := by
  have hf : excludeFires cfg obj = true := by
    unfold excludeFires
    rw [hex]
    exact hm
  refine ⟨?_, ?_⟩ <;> simp [searchObj, hf, reportCount, isReport]

/-- Search configuration with an exclusion pattern matching the
witness object's key and a matcher that would report twice. -/
def cfgC5 : SearchConfig :=
  { matcher := fun _ => [(0, 3), (8, 11)]
    exceptRe := some (fun s => s == ("ns1/p1".toList))
    showTails := 2 }

/-- Witness for C5: the spec's exclusion scenario. -/
theorem c5_witness :
    searchObj cfgC5 objW = [LogEvent.ignored ("Pods".toList) ("p1".toList) ("ns1".toList)] ∧
      reportCount (searchObj cfgC5 objW) = 0 :=
  c5_excluded_not_reported cfgC5 objW (fun s => s == ("ns1/p1".toList)) rfl (by decide)

/-- Claim C8: a kind out of scope makes its collection routine a
no-op: no provider call, no log line, no error, store untouched. -/
theorem c8_ineligible_noop (w : GoStr) (p : Provider) (k : Kind)
    (st : CollectState) (h : isInWhere w (kindName k) = false) :
    getObjects w p k st = st := by
  simp [getObjects, h]

/-- Provider used by witnesses that never fails. -/
def provOk : Provider := fun _ => Except.ok []

/-- Witness for C8: scope `"pods"` leaves the Deployments routine a
no-op on the fresh state. -/
theorem c8_witness :
    getObjects ("pods".toList) provOk Kind.deployments initState = initState :=
  c8_ineligible_noop ("pods".toList) provOk Kind.deployments initState (by decide)

/-- Claim C9: the scan phase is deterministic and leaves both the
store and the configuration untouched, so running it twice over the
same state yields identical event sequences and the same state. -/
theorem c9_scan_idempotent (cfg : SearchConfig) (st : CollectState) :
    (scanPhase cfg (scanPhase cfg st).1).2 = (scanPhase cfg st).2 ∧
      (scanPhase cfg st).1 = st :=
  ⟨rfl, rfl⟩

/-- Objects one collection routine contributes to the store: the
converted provider items when the kind is in scope and the call
succeeds, nothing otherwise. -/
def collectBlock (w : GoStr) (p : Provider) (k : Kind) : List KubernetesObject :=
  if isInWhere w (kindName k) then
    match p k with
    | .ok os => os.map (convertObj k)
    | .error _ => []
  else []

/-- Helper: a collection routine never truncates the store; it appends
exactly its block. -/
theorem getObjects_store (w : GoStr) (p : Provider) (k : Kind) (st : CollectState) :
    (getObjects w p k st).store = st.store ++ collectBlock w p k := by
  unfold getObjects collectBlock
  by_cases hk : isInWhere w (kindName k) = true
  · cases hp : p k <;> simp [hk, hp]
  · simp [hk]

/-- Helper: provider invocations of one collection routine. -/
theorem getObjects_calls (w : GoStr) (p : Provider) (k : Kind) (st : CollectState) :
    (getObjects w p k st).calls =
      st.calls ++ (if isInWhere w (kindName k) then [k] else []) := by
  unfold getObjects
  by_cases hk : isInWhere w (kindName k) = true
  · cases hp : p k <;> simp [hk, hp]
  · simp [hk]

/-- Helper: a routine whose provider call succeeds (or that is out of
scope) leaves the pending error unchanged. -/
theorem getObjects_err_ok (w : GoStr) (p : Provider) (k : Kind) (st : CollectState)
    (hok : isInWhere w (kindName k) = true → ∃ os, p k = Except.ok os) :
    (getObjects w p k st).err = st.err := by
  unfold getObjects
  by_cases hk : isInWhere w (kindName k) = true
  · obtain ⟨os, hos⟩ := hok hk
    simp [hk, hos]
  · simp [hk]

/-- Helper: an in-scope routine whose provider call fails records the
wrapped error and its provider invocation. -/
theorem getObjects_error (w : GoStr) (p : Provider) (k : Kind) (st : CollectState)
    (hk : isInWhere w (kindName k) = true) (msg : GoStr)
    (herr : p k = Except.error msg) :
    (getObjects w p k st).err =
        some ("error in ".toList ++ kindName k ++ (": ".toList) ++ msg) ∧
      (getObjects w p k st).calls = st.calls ++ [k] ∧
      (getObjects w p k st).store = st.store := by
  simp [getObjects, hk, herr]

/-- Helper: the collection loop does nothing once an error is
pending. -/
theorem runCollect_err_some (w : GoStr) (p : Provider) (ks : List Kind)
    (st : CollectState) (h : st.err.isSome) : runCollect w p ks st = st := by
  cases ks with
  | nil => rfl
  | cons k rest =>
    cases he : st.err with
    | none => simp [he] at h
    | some e => simp [runCollect, he]

/-- Helper: the collection loop splits over list append. -/
theorem runCollect_append (w : GoStr) (p : Provider) (xs ys : List Kind)
    (st : CollectState) :
    runCollect w p (xs ++ ys) st = runCollect w p ys (runCollect w p xs st) := by
  induction xs generalizing st with
  | nil => rfl
  | cons k rest ih =>
    cases he : st.err with
    | some e =>
      rw [runCollect_err_some w p ((k :: rest) ++ ys) st (by simp [he]),
          runCollect_err_some w p (k :: rest) st (by simp [he]),
          runCollect_err_some w p ys st (by simp [he])]
    | none =>
      have h1 : runCollect w p ((k :: rest) ++ ys) st
          = runCollect w p (rest ++ ys) (getObjects w p k st) := by
        simp [runCollect, he]
      have h2 : runCollect w p (k :: rest) st
          = runCollect w p rest (getObjects w p k st) := by
        simp [runCollect, he]
      rw [h1, h2, ih]

/-- Helper: over a segment whose in-scope kinds all succeed, the
collection loop keeps the error clear, invokes the provider exactly
for the in-scope kinds in order, and appends their blocks in order. -/
theorem runCollect_ok_char (w : GoStr) (p : Provider) (ks : List Kind) :
    ∀ st : CollectState, st.err = none →
      (∀ k ∈ ks, isInWhere w (kindName k) = true → ∃ os, p k = Except.ok os) →
      (runCollect w p ks st).err = none ∧
        (runCollect w p ks st).calls
          = st.calls ++ ks.filter (fun k => isInWhere w (kindName k)) ∧
        (runCollect w p ks st).store
          = st.store ++ (ks.map (collectBlock w p)).flatten := by
  induction ks with
  | nil =>
    intro st h _
    simp [runCollect, h]
  | cons k rest ih =>
    intro st h hall
    have hstep : runCollect w p (k :: rest) st
        = runCollect w p rest (getObjects w p k st) := by
      simp [runCollect, h]
    have hkok : isInWhere w (kindName k) = true → ∃ os, p k = Except.ok os :=
      hall k (by simp)
    have herr : (getObjects w p k st).err = none := by
      rw [getObjects_err_ok w p k st hkok]
      exact h
    obtain ⟨ih1, ih2, ih3⟩ := ih (getObjects w p k st) herr
      (fun k' hk' => hall k' (by simp [hk']))
    rw [hstep]
    refine ⟨ih1, ?_, ?_⟩
    · rw [ih2, getObjects_calls]
      by_cases hk : isInWhere w (kindName k) = true <;>
        simp [hk, List.filter_cons]
    · rw [ih3, getObjects_store]
      simp

/-- Helper: whenever the collection loop finishes with no pending
error, the store is the input store followed by the blocks of the
processed kinds, in list order. -/
theorem runCollect_store_of_ok (w : GoStr) (p : Provider) (ks : List Kind) :
    ∀ st : CollectState, (runCollect w p ks st).err = none →
      (runCollect w p ks st).store
        = st.store ++ (ks.map (collectBlock w p)).flatten := by
  induction ks with
  | nil =>
    intro st _
    simp [runCollect]
  | cons k rest ih =>
    intro st h
    cases he : st.err with
    | some e =>
      rw [runCollect_err_some w p (k :: rest) st (by simp [he]), he] at h
      simp at h
    | none =>
      have hstep : runCollect w p (k :: rest) st
          = runCollect w p rest (getObjects w p k st) := by
        simp [runCollect, he]
      rw [hstep] at h ⊢
      rw [ih _ h, getObjects_store]
      simp

/-- Helper: the first component of a run is the collected state. -/
theorem runApp_fst (w : GoStr) (cfg : SearchConfig) (p : Provider)
    (init : CollectState) :
    (runApp w cfg p init).1 = runCollect w p allKinds init := by
  unfold runApp
  cases he : (runCollect w p allKinds init).err <;> simp [he]

/-- Claim C3: when the provider call of an in-scope kind fails while
every earlier in-scope kind succeeded, the run returns that error
wrapped with the kind name, no provider call is made for any later
kind, and the scan phase is never entered, so no events are emitted. -/
theorem c3_provider_error_halts (w : GoStr) (cfg : SearchConfig) (p : Provider)
    (init : CollectState) (done : List Kind) (k : Kind) (rest : List Kind)
    (msg : GoStr)
    (hsplit : allKinds = done ++ k :: rest)
    (hinit : init.err = none)
    (hdone : ∀ k' ∈ done, isInWhere w (kindName k') = true → ∃ os, p k' = Except.ok os)
    (hk : isInWhere w (kindName k) = true)
    (herr : p k = Except.error msg) :
    (runApp w cfg p init).2 =
        Except.error ("error in ".toList ++ kindName k ++ (": ".toList) ++ msg) ∧
      (runApp w cfg p init).1.calls =
        init.calls ++ done.filter (fun k' => isInWhere w (kindName k')) ++ [k] ∧
      ∀ evs : List LogEvent, (runApp w cfg p init).2 ≠ Except.ok evs := by
  obtain ⟨hd1, hd2, hd3⟩ := runCollect_ok_char w p done init hinit hdone
  obtain ⟨he1, he2, he3⟩ :=
    getObjects_error w p k (runCollect w p done init) hk msg herr
  have hfin : runCollect w p allKinds init
      = getObjects w p k (runCollect w p done init) := by
    rw [hsplit, runCollect_append]
    have hstep : runCollect w p (k :: rest) (runCollect w p done init)
        = runCollect w p rest (getObjects w p k (runCollect w p done init)) := by
      simp [runCollect, hd1]
    rw [hstep, runCollect_err_some w p rest _ (by simp [he1])]
  have h2 : (runApp w cfg p init).2 =
      Except.error ("error in ".toList ++ kindName k ++ (": ".toList) ++ msg) := by
    simp only [runApp]
    rw [hfin, he1]
  refine ⟨h2, ?_, ?_⟩
  · rw [runApp_fst, hfin, he2, hd2]
  · intro evs hcontra
    rw [h2] at hcontra
    exact Except.noConfusion hcontra

/-- Provider of the C3 witness: Pods succeeds, Deployments fails. -/
def provC3 : Provider := fun k =>
  match k with
  | .pods => Except.ok [{ name := "p1".toList, nspace := "ns1".toList, str := "foo".toList }]
  | .deployments => Except.error ("boom".toList)
  | _ => Except.ok []

/-- Witness for C3: scope `"pods,deployments,cronjobs"`, the
Deployments call fails; the run returns the wrapped error, only Pods
and Deployments were invoked, and no event list is produced. -/
theorem c3_witness :
    (runApp ("pods,deployments,cronjobs".toList) cfgC4 provC3 initState).2 =
        Except.error ("error in Deployments: boom".toList) ∧
      (runApp ("pods,deployments,cronjobs".toList) cfgC4 provC3 initState).1.calls =
        [Kind.pods, Kind.deployments] ∧
      ∀ evs : List LogEvent,
        (runApp ("pods,deployments,cronjobs".toList) cfgC4 provC3 initState).2 ≠
          Except.ok evs :=
  c3_provider_error_halts ("pods,deployments,cronjobs".toList) cfgC4 provC3 initState
    [Kind.pods, Kind.configMaps] Kind.deployments
    [Kind.statefulSets, Kind.cronJobs] ("boom".toList) rfl rfl
    (by
      intro k' hk' helig
      fin_cases hk'
      · exact ⟨[{ name := "p1".toList, nspace := "ns1".toList, str := "foo".toList }], rfl⟩
      · exact absurd helig (by decide))
    (by decide) rfl

/-- Claim C6: after a successful run the store is the initial store
followed by the fetched objects in kind-major order along the fixed
kind list, provider order preserved inside each kind; in particular
the initial store is only appended to. -/
theorem c6_store_kind_major (w : GoStr) (cfg : SearchConfig) (p : Provider)
    (init : CollectState) (evs : List LogEvent)
    (hok : (runApp w cfg p init).2 = Except.ok evs) :
    (runApp w cfg p init).1.store
      = init.store ++ (allKinds.map (collectBlock w p)).flatten := by
  have herr : (runCollect w p allKinds init).err = none := by
    cases he : (runCollect w p allKinds init).err with
    | none => rfl
    | some e =>
      simp only [runApp] at hok
      rw [he] at hok
      exact absurd hok (by simp)
  rw [runApp_fst]
  exact runCollect_store_of_ok w p allKinds init herr

/-- Provider of the C6 witness: one pod and one deployment. -/
def provC6 : Provider := fun k =>
  match k with
  | .pods => Except.ok [{ name := "p1".toList, nspace := "ns1".toList, str := "x".toList }]
  | .deployments => Except.ok [{ name := "d1".toList, nspace := "ns1".toList, str := "y".toList }]
  | _ => Except.ok []

/-- Search configuration whose matcher finds nothing. -/
def cfgNone : SearchConfig :=
  { matcher := fun _ => [], exceptRe := none, showTails := 10 }

/-- Witness for C6: scope `"pods,deployments"`; the final store holds
the pod first and the deployment second. -/
theorem c6_witness :
    (runApp ("pods,deployments".toList) cfgNone provC6 initState).1.store =
      [{ kind := "Pods".toList, name := "p1".toList, nspace := "ns1".toList,
         object := "x".toList },
       { kind := "Deployments".toList, name := "d1".toList, nspace := "ns1".toList,
         object := "y".toList }] :=
  c6_store_kind_major ("pods,deployments".toList) cfgNone provC6 initState [] rfl

/-- Claim C10: `Init` compiles the user's pattern verbatim
(`internal.go` lines 61-64) while `search` matches it against the
lowercased text (line 240); therefore a matcher that only matches
strings containing an ASCII uppercase letter yields zero reports for
every object. -/
theorem c10_uppercase_only_matcher_silent (cfg : SearchConfig)
    (hm : ∀ t : GoStr, ∀ loc ∈ cfg.matcher t,
        ∃ c ∈ sliceList t loc.1 loc.2, isUpperAscii c = true) :
    ∀ obj : KubernetesObject, reportCount (searchObj cfg obj) = 0 := by
  intro obj
  cases hex : excludeFires cfg obj with
  | true => simp [searchObj, hex, reportCount, isReport]
  | false =>
    have hnil : cfg.matcher (goToLower obj.object) = [] := by
      rw [List.eq_nil_iff_forall_not_mem]
      intro loc hloc
      obtain ⟨c, hc, hcu⟩ := hm (goToLower obj.object) loc hloc
      have hslice : sliceList (goToLower obj.object) loc.1 loc.2
          = (sliceList obj.object loc.1 loc.2).map goToLowerChar := by
        simp [sliceList, goToLower, List.map_take, List.map_drop]
      rw [hslice] at hc
      obtain ⟨c', _, rfl⟩ := List.mem_map.mp hc
      rw [isUpperAscii_goToLowerChar] at hcu
      exact Bool.noConfusion hcu
    rw [searchObj_not_excluded cfg obj hex, hnil]
    rfl

/-- Matcher of the C10 witness: reports every position holding the
uppercase literal `B`, so every matched substring is `"B"`. -/
def matcherB : GoStr → List (Nat × Nat) := fun t =>
  (List.range t.length).filterMap (fun i =>
    if sliceList t i (i + 1) = [ 'B' ] then some (i, i + 1) else none)

/-- Search configuration of the C10 witness. -/
def cfgC10 : SearchConfig :=
  { matcher := matcherB, exceptRe := none, showTails := 2 }

/-- Witness for C10: the object text `"foo BAR foo"` contains `B`,
yet the scan of the lowercased text reports nothing. -/
theorem c10_witness : reportCount (searchObj cfgC10 objW) = 0 :=
  c10_uppercase_only_matcher_silent cfgC10
    (by
      intro t loc hloc
      simp only [cfgC10, matcherB, List.mem_filterMap, List.mem_range] at hloc
      obtain ⟨i, _, hif⟩ := hloc
      by_cases hb : sliceList t i (i + 1) = [ 'B' ]
      · rw [if_pos hb] at hif
        cases hif
        exact ⟨ 'B', by rw [hb]; exact List.mem_singleton_self _, by decide⟩
      · rw [if_neg hb] at hif
        exact Option.noConfusion hif)
    objW

/-- Occurrence of the pattern `p` at position `j` of the text `t`. -/
def occursAt (p t : GoStr) (j : Nat) : Prop := (t.drop j).take p.length = p

instance (p t : GoStr) (j : Nat) : Decidable (occursAt p t j) :=
  inferInstanceAs (Decidable ((t.drop j).take p.length = p))

/-- Fueled leftmost-first non-overlapping scan for a literal pattern:
the documented semantics of Go's `FindAllStringIndex` (used at
`internal.go` line 240) for patterns that are plain nonempty literals.
At each position, if the pattern starts there, record the interval and
resume after it; otherwise advance one position.  The fuel bounds the
number of steps; `t.length` steps always suffice. -/
def findAllAux (p : GoStr) : Nat → GoStr → Nat → List (Nat × Nat)
  | 0, _, _ => []
  | _ + 1, [], _ => []
  | fuel + 1, c :: rest, i =>
    if p ≠ [] ∧ (c :: rest).take p.length = p then
      (i, i + p.length) :: findAllAux p fuel ((c :: rest).drop p.length) (i + p.length)
    else
      findAllAux p fuel rest (i + 1)

/-- All matches of the literal pattern `p` on the text `t`, in
leftmost-first non-overlapping order. -/
def findAllLiteral (p t : GoStr) : List (Nat × Nat) := findAllAux p t.length t 0

/-- Helper, soundness of the scan: every recorded interval starts at
or after the running index, has the pattern's length, and is a true
occurrence of the pattern. -/
theorem findAllAux_sound (p : GoStr) :
    ∀ fuel t i loc, loc ∈ findAllAux p fuel t i →
      i ≤ loc.1 ∧ loc.2 = loc.1 + p.length ∧ occursAt p t (loc.1 - i) := by
  intro fuel
  induction fuel with
  | zero =>
    intro t i loc h
    simp [findAllAux] at h
  | succ n ih =>
    intro t i loc h
    cases t with
    | nil => simp [findAllAux] at h
    | cons c rest =>
      by_cases hc : p ≠ [] ∧ (c :: rest).take p.length = p
      · rw [findAllAux, if_pos hc] at h
        rcases List.mem_cons.mp h with hhead | htail
        · subst hhead
          refine ⟨le_refl _, rfl, ?_⟩
          unfold occursAt
          simpa using hc.2
        · obtain ⟨h1, h2, h3⟩ := ih _ _ loc htail
          have hlen : 0 < p.length := List.length_pos.mpr hc.1
          refine ⟨by omega, h2, ?_⟩
          unfold occursAt at h3 ⊢
          rw [List.drop_drop] at h3
          have heq : p.length + (loc.1 - (i + p.length)) = loc.1 - i := by omega
          rw [heq] at h3
          exact h3
      · rw [findAllAux, if_neg hc] at h
        obtain ⟨h1, h2, h3⟩ := ih _ _ loc h
        refine ⟨by omega, h2, ?_⟩
        unfold occursAt at h3 ⊢
        have heq : loc.1 - i = (loc.1 - (i + 1)) + 1 := by omega
        rw [heq, List.drop_succ_cons]
        exact h3

/-- Helper: the recorded intervals are pairwise non-overlapping and in
left-to-right order. -/
theorem findAllAux_chain (p : GoStr) :
    ∀ fuel t i, List.Chain' (fun a b => a.2 ≤ b.1) (findAllAux p fuel t i) := by
  intro fuel
  induction fuel with
  | zero =>
    intro t i
    simp [findAllAux]
  | succ n ih =>
    intro t i
    cases t with
    | nil => simp [findAllAux]
    | cons c rest =>
      by_cases hc : p ≠ [] ∧ (c :: rest).take p.length = p
      · rw [findAllAux, if_pos hc, List.chain'_cons']
        refine ⟨?_, ih _ _⟩
        intro y hy
        have hmem : y ∈ findAllAux p n ((c :: rest).drop p.length) (i + p.length) :=
          List.mem_of_mem_head? hy
        have h1 := (findAllAux_sound p n _ _ y hmem).1
        simpa using h1
      · rw [findAllAux, if_neg hc]
        exact ih _ _

/-- Helper, completeness of the scan: every occurrence of the pattern
is covered by some recorded interval; in particular the scan misses no
occurrence and each missed start lies inside an earlier recorded
match. -/
theorem findAllAux_complete (p : GoStr) (hp : p ≠ []) :
    ∀ fuel t i j, t.length ≤ fuel → occursAt p t j →
      ∃ loc ∈ findAllAux p fuel t i, loc.1 ≤ i + j ∧ i + j < loc.2 := by
  intro fuel
  induction fuel with
  | zero =>
    intro t i j hlen hocc
    have ht : t = [] := List.length_eq_zero.mp (Nat.le_zero.mp hlen)
    subst ht
    unfold occursAt at hocc
    simp at hocc
    exact absurd hocc hp
  | succ n ih =>
    intro t i j hlen hocc
    cases t with
    | nil =>
      unfold occursAt at hocc
      simp at hocc
      exact absurd hocc hp
    | cons c rest =>
      have hplen : 0 < p.length := List.length_pos.mpr hp
      by_cases hc : p ≠ [] ∧ (c :: rest).take p.length = p
      · rw [findAllAux, if_pos hc]
        by_cases hj : j < p.length
        · exact ⟨(i, i + p.length), List.mem_cons_self _ _, by omega, by omega⟩
        · have hocc' : occursAt p ((c :: rest).drop p.length) (j - p.length) := by
            unfold occursAt at hocc ⊢
            rw [List.drop_drop]
            have heq : p.length + (j - p.length) = j := by omega
            rw [heq]
            exact hocc
          have hlen' : ((c :: rest).drop p.length).length ≤ n := by
            simp only [List.length_drop, List.length_cons] at hlen ⊢
            omega
          obtain ⟨loc, hmem, hle, hlt⟩ := ih _ (i + p.length) (j - p.length) hlen' hocc'
          exact ⟨loc, List.mem_cons_of_mem _ hmem, by omega, by omega⟩
      · have htake : (c :: rest).take p.length ≠ p := fun h => hc ⟨hp, h⟩
        have hj0 : j ≠ 0 := by
          intro h0
          subst h0
          unfold occursAt at hocc
          simp at hocc
          exact htake hocc
        obtain ⟨j', rfl⟩ : ∃ j', j = j' + 1 := ⟨j - 1, by omega⟩
        have hocc' : occursAt p rest j' := by
          unfold occursAt at hocc ⊢
          rw [List.drop_succ_cons] at hocc
          exact hocc
        have hlen' : rest.length ≤ n := by
          simp only [List.length_cons] at hlen
          omega
        obtain ⟨loc, hmem, hle, hlt⟩ := ih rest (i + 1) j' hlen' hocc'
        rw [findAllAux, if_neg hc]
        exact ⟨loc, hmem, by omega, by omega⟩

/-- Claim C7: for a nonempty literal pattern, the matches found on a
text are exactly the standard leftmost-first non-overlapping
occurrence list: every reported interval is a true occurrence of the
pattern's length, the intervals are in left-to-right non-overlapping
order, every occurrence is covered by a reported interval, the number
and order of emitted reports equal that list, and an empty match list
makes the scan skip the object silently. -/
theorem c7_leftmost_nonoverlapping (p t : GoStr) (hp : p ≠ []) :
    (∀ loc ∈ findAllLiteral p t, loc.2 = loc.1 + p.length ∧ occursAt p t loc.1) ∧
      List.Chain' (fun a b => a.2 ≤ b.1) (findAllLiteral p t) ∧
      (∀ j, occursAt p t j → ∃ loc ∈ findAllLiteral p t, loc.1 ≤ j ∧ j < loc.2) ∧
      (∀ cfg : SearchConfig, ∀ obj : KubernetesObject,
        excludeFires cfg obj = false →
        cfg.matcher = (fun s => findAllLiteral p s) →
        (searchObj cfg obj).length = (findAllLiteral p (goToLower obj.object)).length) ∧
      (∀ cfg : SearchConfig, ∀ obj : KubernetesObject,
        excludeFires cfg obj = false →
        cfg.matcher (goToLower obj.object) = [] →
        searchObj cfg obj = []) := by
  refine ⟨?_, findAllAux_chain p t.length t 0, ?_, ?_, ?_⟩
  · intro loc hmem
    have h := findAllAux_sound p t.length t 0 loc hmem
    exact ⟨h.2.1, by simpa using h.2.2⟩
  · intro j hocc
    have h := findAllAux_complete p hp t.length t 0 j (le_refl _) hocc
    simpa using h
  · intro cfg obj hex hmat
    rw [searchObj_not_excluded cfg obj hex, hmat]
    simp
  · intro cfg obj hex hnil
    rw [searchObj_not_excluded cfg obj hex, hnil]
    rfl

/-- Witness for C7 at the pattern `"foo"` and the lowercased scenario
text `"foo bar foo"`. -/
theorem c7_witness :
    (∀ loc ∈ findAllLiteral ("foo".toList) ("foo bar foo".toList),
        loc.2 = loc.1 + ("foo".toList).length ∧
          occursAt ("foo".toList) ("foo bar foo".toList) loc.1) ∧
      List.Chain' (fun a b => a.2 ≤ b.1)
        (findAllLiteral ("foo".toList) ("foo bar foo".toList)) ∧
      (∀ j, occursAt ("foo".toList) ("foo bar foo".toList) j →
        ∃ loc ∈ findAllLiteral ("foo".toList) ("foo bar foo".toList),
          loc.1 ≤ j ∧ j < loc.2) ∧
      (∀ cfg : SearchConfig, ∀ obj : KubernetesObject,
        excludeFires cfg obj = false →
        cfg.matcher = (fun s => findAllLiteral ("foo".toList) s) →
        (searchObj cfg obj).length =
          (findAllLiteral ("foo".toList) (goToLower obj.object)).length) ∧
      (∀ cfg : SearchConfig, ∀ obj : KubernetesObject,
        excludeFires cfg obj = false →
        cfg.matcher (goToLower obj.object) = [] →
        searchObj cfg obj = []) :=
  c7_leftmost_nonoverlapping ("foo".toList) ("foo bar foo".toList) (by decide)
